import Mathlib

/-!
Verification of the deterministic virtual-time test harness
(`src/util/testing-utils.ts` of `ea-framework-js`).

The TypeScript source is shallowly embedded: JS objects used as string
dictionaries become association lists, thrown exceptions become explicit
error results threaded next to the (unchanged) state, and the possibly
nonterminating clock-advancement loops take an explicit fuel argument,
returning `none` when the fuel runs out (the deliberate hung-test failure
mode of the source).
-/

/-! ## JS dictionary and string primitives -/

/-- JS object `{ [key: string]: string }` modelled as an association list;
property lookup returns the first binding for the key, `none` standing for
JS `undefined`. -/
def jsLookup (t : List (String × String)) (k : String) : Option String :=
  match t with
  | [] => none
  | (k2, v) :: rest => if k2 = k then some v else jsLookup rest k

/-- JS property assignment `t[k] = v`: overwrite the binding when the key is
present, otherwise add a new binding. -/
def jsAssign (t : List (String × String)) (k v : String) : List (String × String) :=
  match t with
  | [] => [(k, v)]
  | (k2, v2) :: rest => if k2 = k then (k2, v) :: rest else (k2, v2) :: jsAssign rest k v

/-- JS `String.prototype.includes`: does `sub` occur as a contiguous substring
of `s`? -/
def strIncludes (s sub : String) : Bool :=
  go s.data
  where go : List Char → Bool
    | [] => sub.data.isEmpty
    | c :: rest => sub.data.isPrefixOf (c :: rest) || go rest

/-- The apostrophe character, written by its code point. -/
def apostChar : Char := Char.ofNat 39

/-- JS `String.prototype.startsWith`: is `pre` a prefix of `s`? -/
def jsStartsWith (s pre : String) : Bool :=
  pre.data.isPrefixOf s.data

/-- JS `String.prototype.split` with a single-character separator: cut the
character list at every occurrence of `sep`, consuming the separator. -/
def splitOnChar (sep : Char) : List Char → List (List Char)
  | [] => [[]]
  | c :: rest =>
    if c = sep then [] :: splitOnChar sep rest
    else
      match splitOnChar sep rest with
      | [] => [[c]]
      | f :: fs => (c :: f) :: fs

/-! ## RedisMock: TTL store and lock-lease emulator -/

/-- `RedisMock.evalsha` (src/src/util/testing-utils.ts:144-160): the lock-lease
script over the `keys` table. If the resource is held by `instanceKey`,
return 1 and leave the table unchanged (extension); if unheld, record
`instanceKey` as the holder and return 1 (acquisition); otherwise return 0 and
leave the table unchanged (rejection). The result pairs the table after the
call with the returned number. -/
def evalsha (keys : List (String × String)) (redlockKey instanceKey : String) :
    List (String × String) × Nat :=
  if jsLookup keys redlockKey = some instanceKey then (keys, 1)
  else if jsLookup keys redlockKey = none then (jsAssign keys redlockKey instanceKey, 1)
  else (keys, 0)

/-- The transport-style error object `{ message: 'anything' }` thrown by
`RedisMock.set`. -/
structure ReplyErr where
  message : String
  deriving DecidableEq

/-- Modelled from the spec: `LocalCache.set` (the TTL cache engine of
`../cache` is outside src/). A set records a (key, value, ttl) entry for the
key, overwriting any previous entry with the same key; the absolute expiry
derived from the ambient clock plays no role in the claims, so the ttl is
recorded in its place. -/
def localCacheSet (store : List (String × String × Nat)) (key value : String) (ttl : Nat) :
    List (String × String × Nat) :=
  match store with
  | [] => [(key, value, ttl)]
  | (k2, e) :: rest =>
    if k2 = key then (k2, value, ttl) :: rest else (k2, e) :: localCacheSet rest key value ttl

/-- `RedisMock.set` (src/src/util/testing-utils.ts:122-127) in state-passing
form: the first component is the store after the call, the second the error
thrown, if any. A key containing the error-injection substring throws before
`this.store.set` runs, so the store is returned untouched. -/
def redisMockSet (store : List (String × String × Nat)) (key value : String) (ttl : Nat) :
    List (String × String × Nat) × Option ReplyErr :=
  if strIncludes key "force-error" then (store, some ⟨"anything"⟩)
  else (localCacheSet store key value ttl, none)

/-! ## TestMetrics: metrics snapshot parser -/

/-- `TestMetrics.replaceQuotes` (src/src/util/testing-utils.ts:219-221) on
character lists: `s.replace(/\\"/g, "'")`, the left-to-right replacement of
every escaped quote by an apostrophe. -/
def replaceQuotesList : List Char → List Char
  | [] => []
  | [c] => [c]
  | c1 :: c2 :: rest =>
    if c1 = '\\' ∧ c2 = '\"' then apostChar :: replaceQuotesList rest
    else c1 :: replaceQuotesList (c2 :: rest)

/-- JS `String.prototype.split` with the two-character separator quote-comma
(the `'",'` boundary used by the `TestMetrics` constructor): cut at every
occurrence of the pair, consuming it. -/
def splitQC : List Char → List (List Char)
  | [] => [[]]
  | [c] => [[c]]
  | c1 :: c2 :: rest =>
    if c1 = '\"' ∧ c2 = ',' then [] :: splitQC rest
    else
      match splitQC (c2 :: rest) with
      | [] => [[c1]]
      | f :: fs => (c1 :: f) :: fs

/-- Code-point lexicographic comparison of character lists. -/
def charListLe : List Char → List Char → Bool
  | [], _ => true
  | _ :: _, [] => false
  | a :: as, b :: bs => if a = b then charListLe as bs else decide (a < b)

/-- The string ordering used for the JS `.sort((a, b) => a.localeCompare(b))`
calls: modelled as code-point lexicographic order, with which `localeCompare`
agrees on the ASCII fragments appearing here. -/
def strLe (a b : String) : Prop := charListLe a.data b.data = true

instance strLe.decidableRel : DecidableRel strLe := fun a b =>
  inferInstanceAs (Decidable (charListLe a.data b.data = true))

/-- The label-canonicalization pipeline of the `TestMetrics` constructor
(src/src/util/testing-utils.ts:237-242): unescape `\"` into apostrophes,
split on the quote-comma boundary, drop empty fragments and fragments with
the application-identifier namespace `app_`, sort by `strLe`, then append a
closing quote to every fragment and rejoin with commas. -/
def sortedLabelsOfRaw (rawLabels : String) : String :=
  String.intercalate ","
    ((List.insertionSort strLe
      (((splitQC (replaceQuotesList rawLabels.data)).map String.mk).filter
        (fun l => !(l == "") && !(jsStartsWith l "app_")))).map (fun s => s ++ "\""))

/-- A character matched by the `[a-z_]` class of the name regex. -/
def isNameChar (c : Char) : Bool := ((Char.ofNat 97) ≤ c && c ≤ (Char.ofNat 122)) || c = '_'

/-- The opening-brace character, by code point. -/
def lbraceChar : Char := Char.ofNat 123

/-- The closing-brace character, by code point. -/
def rbraceChar : Char := Char.ofNat 125

/-- The regex match `nameAndLabels.match(...)` of the `TestMetrics`
constructor (src/src/util/testing-utils.ts:236): a maximal nonempty leading
run of `[a-z_]` characters, an opening brace, the label list — everything up
to the final character — and a closing brace ending the string. Returns the
(name, rawLabels) capture groups, or `none` when the regex does not match
(in JS the `as string[]` destructuring of the `null` match then throws). -/
def matchNameLabels (s : String) : Option (String × String) :=
  let nameChars := s.data.takeWhile isNameChar
  let rest := s.data.drop nameChars.length
  match nameChars, rest with
  | [], _ => none
  | _ :: _, [] => none
  | _ :: _, c :: mid =>
    if c = lbraceChar ∧ mid ≠ [] ∧ mid.getLast? = some rbraceChar then
      some (String.mk nameChars, String.mk mid.dropLast)
    else none

/-- Outcome of one iteration of the `TestMetrics` constructor loop on a
line. -/
inductive LineResult where
  | skip
  | crash
  | sample (fullName : String) (stringValue : Option String)
  deriving DecidableEq

/-- One iteration of the `TestMetrics` constructor loop
(src/src/util/testing-utils.ts:225-246): skip comment lines, the
`nodejs_`/`process_` housekeeping families and blank lines; split the rest on
single spaces into the `name\x7blabels\x7d` head and the value token; build
the canonical key `name ++ "|" ++ sortedLabels`. The numeric `Number(...)`
conversion of the value token plays no role in the key claims, so the raw
token (JS `undefined` when the line has no second word) is recorded in its
place. -/
def parseMetricsLine (line : String) : LineResult :=
  if jsStartsWith line "#" || jsStartsWith line "nodejs_" ||
      jsStartsWith line "process_" || line == "" then
    .skip
  else
    let parts := (splitOnChar ' ' line.data).map String.mk
    let nameAndLabels := parts.headD ""
    let stringValue := parts[1]?
    match matchNameLabels nameAndLabels with
    | none => .crash
    | some nl => .sample (nl.1 ++ "|" ++ sortedLabelsOfRaw nl.2) stringValue

/-- JS `Map.prototype.set` over an association list: overwrite the first
binding of the key in place, otherwise append a new binding. -/
def jsMapSet (m : List (String × Option String)) (k : String) (v : Option String) :
    List (String × Option String) :=
  match m with
  | [] => [(k, v)]
  | (k2, v2) :: rest => if k2 = k then (k2, v) :: rest else (k2, v2) :: jsMapSet rest k v

/-- JS `Map.prototype.get` over an association list. -/
def jsMapGet (m : List (String × Option String)) (k : String) : Option (Option String) :=
  match m with
  | [] => none
  | (k2, v) :: rest => if k2 = k then some v else jsMapGet rest k

/-- The `TestMetrics` constructor (src/src/util/testing-utils.ts:223-247):
split the snapshot on newlines and fold the per-line step into `this.map`,
later duplicate keys overwriting earlier ones. `none` when some line makes
the regex destructuring throw. -/
def testMetricsMap (data : String) : Option (List (String × Option String)) :=
  go ((splitOnChar (Char.ofNat 10) data.data).map String.mk) []
  where go : List String → List (String × Option String) → Option (List (String × Option String))
    | [], m => some m
    | line :: rest, m =>
      match parseMetricsLine line with
      | .skip => go rest m
      | .crash => none
      | .sample k v => go rest (jsMapSet m k v)

/-- The lookup key built by `TestMetrics.get` (src/src/util/testing-utils.ts:
253-260): render each supplied (labelName, value) pair as
`labelName="value"` — the value passed through `replaceQuotes` — sort, join
with commas (the empty string for an absent label map), and prepend
`name ++ "|"`. -/
def queryKey (name : String) (labels : Option (List (String × String))) : String :=
  name ++ "|" ++
    match labels with
    | none => ""
    | some ps =>
      String.intercalate ","
        (List.insertionSort strLe
          (ps.map (fun p => p.1 ++ "=\"" ++ String.mk (replaceQuotesList p.2.data) ++ "\"")))

/-- `TestMetrics.get` (src/src/util/testing-utils.ts:249-273): look the
canonical key up in the map; `none` is the miss case, in which the source
reports a non-fatal assertion failure and returns JS `undefined`. -/
def testMetricsGet (m : List (String × Option String)) (name : String)
    (labels : Option (List (String × String))) : Option (Option String) :=
  jsMapGet m (queryKey name labels)

/-! ## Exposition-format rendering of a label list

These definitions describe the textual input a label list produces on a
metrics sample line; they are the spec-side vocabulary the label-order
claims quantify over. -/

/-- The characters of one rendered label `key="value"` without its closing
quote — the shape in which every non-final label leaves the quote-comma
split. -/
def openFrag (p : String × String) : List Char :=
  p.1.data ++ '=' :: '\"' :: p.2.data

/-- The characters of one fully rendered label `key="value"`. -/
def closedFrag (p : String × String) : List Char :=
  openFrag p ++ ['\"']

/-- Comma-join of rendered fragments. -/
def joinCommaChars : List (List Char) → List Char
  | [] => []
  | [f] => f
  | f :: fs => f ++ ',' :: joinCommaChars fs

/-- The raw label list text `k1="v1",k2="v2",...` a label list puts between
the braces of a sample line. -/
def renderLabels (ps : List (String × String)) : String :=
  String.mk (joinCommaChars (ps.map closedFrag))

/-- A label whose key and value stay clear of the canonicalizer's meta
characters (quote, comma, backslash — so no escape processing or fragment
splitting happens inside it) and which the `app_` namespace filter keeps. -/
def labelOk (p : String × String) : Bool :=
  p.1.data.all (fun c => !(c = '\"') && !(c = ',') && !(c = '\\')) &&
  p.2.data.all (fun c => !(c = '\"') && !(c = ',') && !(c = '\\')) &&
  !(jsStartsWith (String.mk (openFrag p)) "app_") &&
  !(jsStartsWith (String.mk (closedFrag p)) "app_")

/-! ## Clock-bridging loops -/

/-- The virtual-clock interface the bridging loops consume (spec section 4.1:
the clock is an external dependency, so its operations are abstract here).
`tickA ms` is `clock.tickAsync(ms)`: synchronous advancement by `ms`
milliseconds with all due timers and resulting microtasks flushed. `nextA` is
`clock.nextAsync()`: advancement to the next pending timer. The whole
evolving test-process state, clock included, is abstracted as `σ`. -/
structure ClockOps (σ : Type) where
  tickA : Nat → σ → σ
  nextA : σ → σ

/-- Observable events of the driver loops: one synchronous `tickAsync`
advancement, one `nextAsync` advancement, and one invocation of the
per-iteration validation predicate together with its result. -/
inductive DriverEv where
  | tick (ms : Nat)
  | nextAsync
  | checkStep (i : Nat) (res : Bool)
  deriving DecidableEq

/-- `runAllUntil` (src/src/util/testing-utils.ts:95-99) instrumented with an
event trace: `while (!isComplete()) await clock.nextAsync()`. Predicate
invocations are tagged with the iteration index `i` of the calling driver
(`0` for direct calls). Fuel bounds the number of advancement steps; `none`
is the deliberate hung-test case of a predicate that never becomes true. -/
def runAllUntil {σ : Type} (c : ClockOps σ) (i : Nat) (p : σ → Bool) :
    Nat → σ → Option (σ × List DriverEv)
  | 0, s => if p s then some (s, [.checkStep i true]) else none
  | fuel + 1, s =>
    if p s then some (s, [.checkStep i true])
    else
      match runAllUntil c i p fuel (c.nextA s) with
      | none => none
      | some (s2, evs) => some (s2, .checkStep i false :: .nextAsync :: evs)

/-- The loop body of `runPeriodicAsyncBackgroundExecution`
(src/src/util/testing-utils.ts:73-93) instrumented with an event trace: for
each of the remaining `k` iterations, first `await clock.tickAsync(interval)`,
then `runAllUntil(clock, () => stepValidation(i))`; the first argument of the
recursion is the current iteration index. -/
def runPeriodicAux {σ : Type} (c : ClockOps σ) (interval : Nat) (sv : Nat → σ → Bool)
    (fuel : Nat) : Nat → Nat → σ → Option (σ × List DriverEv)
  | _, 0, s => some (s, [])
  | i, k + 1, s =>
    match runAllUntil c i (sv i) fuel (c.tickA interval s) with
    | none => none
    | some (s2, evs) =>
      match runPeriodicAux c interval sv fuel (i + 1) k s2 with
      | none => none
      | some (s3, evs2) => some (s3, .tick interval :: (evs ++ evs2))

/-- `runPeriodicAsyncBackgroundExecution` (src/src/util/testing-utils.ts:
73-93): drive `times` fixed-interval iterations from iteration index 0. -/
def runPeriodicAsyncBackgroundExecution {σ : Type} (c : ClockOps σ) (interval times : Nat)
    (sv : Nat → σ → Bool) (fuel : Nat) (s : σ) : Option (σ × List DriverEv) :=
  runPeriodicAux c interval sv fuel 0 times s

/-- A concrete instantiation of the clock interface over `Nat` states, for
witnesses: ticking adds the milliseconds, a `nextAsync` step adds one. -/
def natTickClock : ClockOps Nat :=
  ⟨fun ms t => t + ms, fun t => t + 1⟩

/-- Does a driver event record a predicate invocation? -/
def DriverEv.isCheck : DriverEv → Bool
  | .checkStep _ _ => true
  | _ => false

/-! ## The concrete virtual clock and `runAllUntilTime` -/

/-- A virtual clock with its pending timer deadlines in registration order
(spec section 4.1; the fake-timers clock itself is an external dependency).
Needed concretely for the bounded-advancement claim, which speaks about timer
deadlines. -/
structure VClock where
  now : Nat
  timers : List Nat
  deriving DecidableEq

/-- The earliest pending deadline. -/
def minD : List Nat → Option Nat
  | [] => none
  | t :: rest =>
    match minD rest with
    | none => some t
    | some m => some (min t m)

/-- Remove the earliest-registered timer with deadline `d`. -/
def removeFirstD : List Nat → Nat → List Nat
  | [], _ => []
  | t :: rest, d => if t = d then rest else t :: removeFirstD rest d

/-- One `clock.nextAsync()` step on the concrete clock: advance to the
earliest pending deadline (ties to the earliest-registered timer), fire that
timer — removing it and appending whatever timers its callback registers,
supplied by the `spawn` oracle indexed by the firing count — and do nothing
when no timer is pending (the no-op case of the contract). -/
def nextAsyncV (spawn : Nat → List Nat) (k : Nat) (c : VClock) : VClock :=
  match minD c.timers with
  | none => c
  | some m => { now := max c.now m, timers := removeFirstD c.timers m ++ spawn k }

/-- Modelled from the spec: `sleep(time)` (imported from `./index`, which is
outside src/) registers a timer resolving after `time` milliseconds — the
sentinel deadline at exactly `now + time` that `runAllUntilTime` fires
without awaiting. -/
def sleepTimer (c : VClock) (time : Nat) : VClock :=
  { c with timers := c.timers ++ [c.now + time] }

/-- The `while (clock.now < targetTime) await clock.nextAsync()` loop of
`runAllUntilTime` (src/src/util/testing-utils.ts:101-108), with fuel and an
advancement trace: the second component records `clock.now` after each
advancement. -/
def runAllUntilTimeLoop (spawn : Nat → List Nat) (target : Nat) :
    Nat → Nat → VClock → Option VClock × List Nat
  | 0, _, c => if c.now < target then (none, []) else (some c, [])
  | fuel + 1, k, c =>
    if c.now < target then
      ((runAllUntilTimeLoop spawn target fuel (k + 1) (nextAsyncV spawn k c)).1,
        (nextAsyncV spawn k c).now ::
          (runAllUntilTimeLoop spawn target fuel (k + 1) (nextAsyncV spawn k c)).2)
    else (some c, [])

/-- `runAllUntilTime` (src/src/util/testing-utils.ts:101-108): record the
target `clock.now + time`, register the sentinel sleep timer, loop. -/
def runAllUntilTime (spawn : Nat → List Nat) (fuel : Nat) (c : VClock) (time : Nat) :
    Option VClock × List Nat :=
  runAllUntilTimeLoop spawn (c.now + time) fuel 0 (sleepTimer c time)

/-! ## TestAdapter dependency guards -/

/-- The dependency configuration of a `TestAdapter` instance
(src/src/util/testing-utils.ts:304-318): which optional collaborators were
installed at construction. `Option Unit` records presence only. -/
structure TestAdapterDeps where
  clock : Option Unit
  mockCache : Option Unit
  metricsApi : Option Unit

/-- `TestAdapter.startBackgroundExecuteThenGetResponse`
(src/src/util/testing-utils.ts:386-426) guard structure in result form: the
configuration checks run first and throw before any request is issued or any
time advanced; `body` stands for the effects of the rest of the method,
reachable only past both guards. -/
def startBackgroundExecuteThenGetResponse {α : Type} (a : TestAdapterDeps) (body : α) :
    Except String α :=
  if a.clock.isNone then
    .error "The \"startBackgroundExecuteThenGetResponse\" method should only be called if a fake clock is installed"
  else if a.mockCache.isNone then
    .error "The \"startBackgroundExecuteThenGetResponse\" method should only be called if a mock cache was provided"
  else .ok body

/-- `TestAdapter.waitForCache` (src/src/util/testing-utils.ts:428-441) guard
structure: throws (with the same message as above, kept verbatim in the
source) when no clock is installed, before any advancement. -/
def waitForCache {α : Type} (a : TestAdapterDeps) (body : α) : Except String α :=
  if a.clock.isNone then
    .error "The \"startBackgroundExecuteThenGetResponse\" method should only be called if a fake clock is installed"
  else .ok body

/-- `TestAdapter.getMetrics` (src/src/util/testing-utils.ts:443-451) guard
structure: throws when the adapter was started without metrics enabled,
before fetching anything. -/
def getMetrics {α : Type} (a : TestAdapterDeps) (body : α) : Except String α :=
  if a.metricsApi.isNone then
    .error "An attempt was made to fetch metrics, but the adapter was started without metrics enabled"
  else .ok body

/-! ## The strict-access stub wrapper -/

/-- A JS value as seen by the strict-access stub wrapper: `undefined`,
`null`, a non-object primitive carrying its display text, or an object with
its property table. The `prop in target` check of the source sees inherited
properties too, so `fields` models the complete property set of the
object. -/
inductive JsValue where
  | undefVal
  | jsNull
  | prim (rep : String)
  | obj (fields : List (String × JsValue))

/-- JS `result === undefined`. -/
def JsValue.isUndefined : JsValue → Bool
  | .undefVal => true
  | _ => false

/-- The outcome of `makeStub`: `null` and non-objects come back unchanged
(`raw`), objects come back wrapped in a proxy carrying the diagnostic path
name. -/
inductive Stubbed where
  | raw (v : JsValue)
  | proxy (name : String) (fields : List (String × JsValue))

/-- `makeStub` (src/src/util/testing-utils.ts:539-556). -/
def makeStub (name : String) : JsValue → Stubbed
  | .obj fields => .proxy name fields
  | v => .raw v

/-- A JS property key: a string name or a symbol. -/
inductive PropKey where
  | str (s : String)
  | sym (descr : String)
  deriving DecidableEq

/-- JS `String(prop)`, used to extend the diagnostic path name. -/
def propKeyString : PropKey → String
  | .str s => s
  | .sym d => "Symbol(" ++ d ++ ")"

/-- `allowedUndefinedStubProps` (src/src/util/testing-utils.ts:559-569). -/
def allowedUndefinedStubProps : List String :=
  ["$$typeof", "nodeType", "tagName", "hasAttribute", "@@__IMMUTABLE_ITERABLE__@@",
    "@@__IMMUTABLE_RECORD__@@", "toJSON", "asymmetricMatch", "then"]

/-- `isStubPropAllowedUndefined` (src/src/util/testing-utils.ts:571-576). -/
def isStubPropAllowedUndefined : PropKey → Bool
  | .sym _ => true
  | .str s => allowedUndefinedStubProps.contains s

/-- Property lookup in a stub object's property table. -/
def jsFieldLookup (fields : List (String × JsValue)) (k : String) : Option JsValue :=
  match fields with
  | [] => none
  | (k2, v) :: rest => if k2 = k then some v else jsFieldLookup rest k

/-- The property a read resolves to: string keys are looked up in the
property table, symbol keys are absent from the string-keyed table. -/
def stubField (fields : List (String × JsValue)) : PropKey → Option JsValue
  | .str s => jsFieldLookup fields s
  | .sym _ => none

/-- The proxy `get` trap installed by `makeStub`
(src/src/util/testing-utils.ts:544-554): extend the path name; throw when the
property is neither present nor allow-listed; otherwise return `makeStub` of
the property's value (JS `undefined` when absent but allow-listed). -/
def stubGet (name : String) (fields : List (String × JsValue)) (p : PropKey) :
    Except String Stubbed :=
  if (stubField fields p).isNone && !(isStubPropAllowedUndefined p) then
    .error ("Property " ++ String.singleton apostChar ++ (name ++ "." ++ propKeyString p) ++
      String.singleton apostChar ++ " does not exist")
  else .ok (makeStub (name ++ "." ++ propKeyString p) ((stubField fields p).getD .undefVal))

/-! ## The asynchronous completion bridge -/

/-- The result slot of `waitUntilResolved` (src/src/util/testing-utils.ts:
459-474): `let result` starts as JS `undefined` and is written once the
wrapped operation settles — after `settleAfter` clock advancements, with
value `value`. -/
def resultSlot (settleAfter : Nat) (value : JsValue) (steps : Nat) : JsValue :=
  if settleAfter ≤ steps then value else .undefVal

/-- The `while (result === undefined) await clock.nextAsync()` loop of
`waitUntilResolved`, with fuel; `steps` counts the advancement calls made so
far, and the returned value is the slot's content at exit. -/
def waitUntilResolvedLoop (settleAfter : Nat) (value : JsValue) : Nat → Nat → Option JsValue
  | 0, steps =>
    if (resultSlot settleAfter value steps).isUndefined then none
    else some (resultSlot settleAfter value steps)
  | fuel + 1, steps =>
    if (resultSlot settleAfter value steps).isUndefined then
      waitUntilResolvedLoop settleAfter value fuel (steps + 1)
    else some (resultSlot settleAfter value steps)

/-- `waitUntilResolved` (src/src/util/testing-utils.ts:459-474): start the
operation, then loop until the result slot differs from `undefined`; `none`
when the fuel runs out, i.e. the loop is still advancing the clock. -/
def waitUntilResolved (settleAfter : Nat) (value : JsValue) (fuel : Nat) : Option JsValue :=
  waitUntilResolvedLoop settleAfter value fuel 0

/-! ## Theorems -/

theorem charListLe_total : ∀ a b : List Char, charListLe a b = true ∨ charListLe b a = true
  | [], _ => Or.inl rfl
  | _ :: _, [] => Or.inr rfl
  | a :: as, b :: bs => by
    by_cases hab : a = b
    · subst hab
      simp only [charListLe, if_pos rfl]
      exact charListLe_total as bs
    · simp only [charListLe, if_neg hab, if_neg (Ne.symm hab), decide_eq_true_eq]
      rcases lt_trichotomy a b with h | h | h
      · exact Or.inl h
      · exact absurd h hab
      · exact Or.inr h

theorem charListLe_trans :
    ∀ a b c : List Char, charListLe a b = true → charListLe b c = true →
      charListLe a c = true
  | [], _, _, _, _ => rfl
  | _ :: _, [], _, hab, _ => by simp [charListLe] at hab
  | _ :: _, _ :: _, [], _, hbc => by simp [charListLe] at hbc
  | a :: as, b :: bs, c :: cs, hab, hbc => by
    by_cases h1 : a = b <;> by_cases h2 : b = c
    · subst h1; subst h2
      simp only [charListLe, if_pos rfl] at hab hbc ⊢
      exact charListLe_trans as bs cs hab hbc
    · subst h1
      simp only [charListLe, if_pos rfl, if_neg h2] at hab hbc ⊢
      exact hbc
    · subst h2
      simp only [charListLe, if_pos rfl, if_neg h1] at hab hbc ⊢
      exact hab
    · simp only [charListLe, if_neg h1, if_neg h2, decide_eq_true_eq] at hab hbc
      have hac : a < c := lt_trans hab hbc
      simp only [charListLe, if_neg (ne_of_lt hac), decide_eq_true_eq]
      exact hac

theorem charListLe_antisymm :
    ∀ a b : List Char, charListLe a b = true → charListLe b a = true → a = b
  | [], [], _, _ => rfl
  | [], _ :: _, _, hba => by simp [charListLe] at hba
  | _ :: _, [], hab, _ => by simp [charListLe] at hab
  | a :: as, b :: bs, hab, hba => by
    by_cases h : a = b
    · subst h
      simp only [charListLe, if_pos rfl] at hab hba
      rw [charListLe_antisymm as bs hab hba]
    · simp only [charListLe, if_neg h, if_neg (Ne.symm h), decide_eq_true_eq] at hab hba
      exact absurd (lt_trans hab hba) (lt_irrefl a)

instance strLe.isTotal : IsTotal String strLe :=
  ⟨fun a b => charListLe_total a.data b.data⟩

instance strLe.isTrans : IsTrans String strLe :=
  ⟨fun a b c => charListLe_trans a.data b.data c.data⟩

instance strLe.isAntisymm : IsAntisymm String strLe :=
  ⟨fun a b hab hba => congrArg String.mk (charListLe_antisymm a.data b.data hab hba)⟩

theorem jsLookup_jsAssign_self (t : List (String × String)) (k v : String) :
    jsLookup (jsAssign t k v) k = some v := by
  induction t with
  | nil => simp [jsAssign, jsLookup]
  | cons hd tl ih =>
    obtain ⟨k2, v2⟩ := hd
    by_cases h : k2 = k <;> simp [jsAssign, jsLookup, h, ih]

theorem evalsha_held_preserved (t : List (String × String)) (R H H2 : String)
    (hheld : jsLookup t R = some H) :
    jsLookup (evalsha t R H2).1 R = some H := by
  unfold evalsha
  by_cases h1 : jsLookup t R = some H2
  · simpa [h1] using hheld
  · have h2 : ¬ jsLookup t R = none := by simp [hheld]
    simpa [h1, h2] using hheld

/-- C1: lock-lease protocol of `RedisMock.evalsha`. Starting from any table in
which `R` is unheld and holder tokens `H1 ≠ H2`: acquiring with `H1` returns 1
and records `H1` as owner; a second call with `H1` returns 1 and leaves the
table unchanged (idempotent extension); a call with `H2` while `R` is held by
`H1` returns 0 and leaves the table unchanged; and, in general, whatever holder
occupies a resource is preserved by any further `evalsha` call on it, so at
most one holder ever occupies a resource and a holder is never replaced
through acquire. -/
theorem evalsha_lock_protocol (keys : List (String × String)) (R H1 H2 : String)
    (hne : H1 ≠ H2) (hfree : jsLookup keys R = none) :
    (evalsha keys R H1).2 = 1 ∧
    jsLookup (evalsha keys R H1).1 R = some H1 ∧
    evalsha (evalsha keys R H1).1 R H1 = ((evalsha keys R H1).1, 1) ∧
    evalsha (evalsha keys R H1).1 R H2 = ((evalsha keys R H1).1, 0) ∧
    (∀ t H H3, jsLookup t R = some H → jsLookup (evalsha t R H3).1 R = some H) := by
  have hacq : evalsha keys R H1 = (jsAssign keys R H1, 1) := by
    simp [evalsha, hfree]
  have hheld : jsLookup (jsAssign keys R H1) R = some H1 :=
    jsLookup_jsAssign_self keys R H1
  rw [hacq]
  refine ⟨rfl, hheld, ?_, ?_, fun t H H3 h => evalsha_held_preserved t R H H3 h⟩
  · simp [evalsha, hheld]
  · have hne2 : ¬ jsLookup (jsAssign keys R H1) R = some H2 := by
      simp [hheld]; exact hne
    have hne3 : ¬ jsLookup (jsAssign keys R H1) R = none := by simp [hheld]
    simp [evalsha, hne2, hne3]

theorem evalsha_lock_protocol_witness :
    ("a" : String) ≠ "b" ∧ jsLookup [] "r" = none ∧
    ((evalsha [] "r" "a").2 = 1 ∧
      jsLookup (evalsha [] "r" "a").1 "r" = some "a" ∧
      evalsha (evalsha [] "r" "a").1 "r" "a" = ((evalsha [] "r" "a").1, 1) ∧
      evalsha (evalsha [] "r" "a").1 "r" "b" = ((evalsha [] "r" "a").1, 0) ∧
      (∀ t H H3, jsLookup t "r" = some H → jsLookup (evalsha t "r" H3).1 "r" = some H)) :=
  ⟨by decide, rfl, evalsha_lock_protocol [] "r" "a" "b" (by decide) rfl⟩

/-- C2: for every key containing the error-injection substring `force-error`,
every value, every ttl and every store state, `RedisMock.set` raises the
transport-style error and performs no mutation: the stored entries — and
hence the store size — are identical before and after the failed call. -/
theorem redisMockSet_force_error (store : List (String × String × Nat))
    (key value : String) (ttl : Nat) (h : strIncludes key "force-error" = true) :
    redisMockSet store key value ttl = (store, some ⟨"anything"⟩) ∧
    (redisMockSet store key value ttl).1 = store ∧
    (redisMockSet store key value ttl).1.length = store.length := by
  have heq : redisMockSet store key value ttl = (store, some ⟨"anything"⟩) := by
    simp [redisMockSet, h]
  exact ⟨heq, by rw [heq], by rw [heq]⟩

theorem redisMockSet_force_error_witness :
    strIncludes "force-error-key" "force-error" = true ∧
    (redisMockSet [("k", "v", 5)] "force-error-key" "x" 100 = ([("k", "v", 5)], some ⟨"anything"⟩) ∧
      (redisMockSet [("k", "v", 5)] "force-error-key" "x" 100).1 = [("k", "v", 5)] ∧
      (redisMockSet [("k", "v", 5)] "force-error-key" "x" 100).1.length = [("k", "v", 5)].length) :=
  ⟨by decide, redisMockSet_force_error [("k", "v", 5)] "force-error-key" "x" 100 (by decide)⟩

/-- C3 counterexample: the same two-label sample permuted textually parses to
two different canonical map keys. The quote-comma split leaves the closing
quote only on the textually last fragment, and the uniform re-quoting step
then doubles that quote, so which label came last is visible in the key:
`a="1",b="2"` canonicalizes to `a="1",b="2""` while `b="2",a="1"`
canonicalizes to `a="1"",b="2"`. -/
theorem parse_key_label_order_dependent :
    parseMetricsLine "test_metric\x7ba=\"1\",b=\"2\"\x7d 5" =
      .sample "test_metric|a=\"1\",b=\"2\"\"" (some "5") ∧
    parseMetricsLine "test_metric\x7bb=\"2\",a=\"1\"\x7d 5" =
      .sample "test_metric|a=\"1\"\",b=\"2\"" (some "5") ∧
    ("test_metric|a=\"1\",b=\"2\"\"" : String) ≠ "test_metric|a=\"1\"\",b=\"2\"" :=
  ⟨by decide, by decide, by decide⟩

/-- C4: the key under which the constructor stores a labelled sample carries a
doubled closing quote on its last label, while `TestMetrics.get` renders every
label with single quotes, so the lookup key never equals the stored key and
the query reports a miss. Here the snapshot `test_metric\x7bmethod="GET"\x7d 5`
is stored under `test_metric|method="GET""` but queried as
`test_metric|method="GET"`. -/
theorem testMetricsGet_labeled_miss :
    testMetricsMap "test_metric\x7bmethod=\"GET\"\x7d 5" =
      some [("test_metric|method=\"GET\"\"", some "5")] ∧
    queryKey "test_metric" (some [("method", "GET")]) = "test_metric|method=\"GET\"" ∧
    ("test_metric|method=\"GET\"\"" : String) ≠ "test_metric|method=\"GET\"" ∧
    testMetricsGet [("test_metric|method=\"GET\"\"", some "5")] "test_metric"
      (some [("method", "GET")]) = none :=
  ⟨by decide, by decide, by decide, by decide⟩

theorem replaceQuotesList_id : ∀ s : List Char, (∀ c ∈ s, c ≠ '\\') → replaceQuotesList s = s
  | [], _ => rfl
  | [_], _ => rfl
  | c1 :: c2 :: rest, h => by
    have h1 : c1 ≠ '\\' := h c1 (List.mem_cons_self _ _)
    have hcond : ¬ (c1 = '\\' ∧ c2 = '\"') := fun hc => h1 hc.1
    simp only [replaceQuotesList, if_neg hcond]
    rw [replaceQuotesList_id (c2 :: rest) (fun c hc => h c (List.mem_cons_of_mem _ hc))]

theorem splitQC_no_comma : ∀ s : List Char, (∀ c ∈ s, c ≠ ',') → splitQC s = [s]
  | [], _ => rfl
  | [_], _ => rfl
  | c1 :: c2 :: rest, h => by
    have h2 : c2 ≠ ',' := h c2 (List.mem_cons_of_mem _ (List.mem_cons_self _ _))
    have hcond : ¬ (c1 = '\"' ∧ c2 = ',') := fun hc => h2 hc.2
    simp only [splitQC, if_neg hcond]
    rw [splitQC_no_comma (c2 :: rest) (fun c hc => h c (List.mem_cons_of_mem _ hc))]

theorem splitQC_append_sep :
    ∀ pre suf : List Char, (∀ c ∈ pre, c ≠ ',') →
      splitQC (pre ++ '\"' :: ',' :: suf) = pre :: splitQC suf
  | [], _, _ => by
    simp [splitQC]
  | p1 :: pre', suf, h => by
    have ih := splitQC_append_sep pre' suf (fun c hc => h c (List.mem_cons_of_mem _ hc))
    cases pre' with
    | nil =>
      simp only [List.cons_append, List.nil_append]
      simp [splitQC]
    | cons p2 pre'' =>
      have h2 : p2 ≠ ',' := h p2 (List.mem_cons_of_mem _ (List.mem_cons_self _ _))
      have hcond : ¬ (p1 = '\"' ∧ p2 = ',') := fun hc => h2 hc.2
      simp only [List.cons_append] at ih ⊢
      simp only [splitQC, if_neg hcond, ih]

theorem joinCommaChars_cons (f : List Char) (fs : List (List Char)) (h : fs ≠ []) :
    joinCommaChars (f :: fs) = f ++ ',' :: joinCommaChars fs := by
  cases fs with
  | nil => exact absurd rfl h
  | cons g gs => rfl

theorem labelOk_chars (p : String × String) (h : labelOk p = true) :
    (∀ c ∈ p.1.data, c ≠ '\"' ∧ c ≠ ',' ∧ c ≠ '\\') ∧
    (∀ c ∈ p.2.data, c ≠ '\"' ∧ c ≠ ',' ∧ c ≠ '\\') := by
  simp only [labelOk, Bool.and_eq_true, List.all_eq_true, Bool.not_eq_true', beq_eq_false_iff_ne,
    decide_eq_true_eq] at h
  obtain ⟨⟨⟨hk, hv⟩, _⟩, _⟩ := h
  constructor
  · intro c hc
    have := hk c hc
    simp only [Bool.and_eq_true, Bool.not_eq_true', decide_eq_false_iff_not] at this
    exact ⟨this.1.1, this.1.2, this.2⟩
  · intro c hc
    have := hv c hc
    simp only [Bool.and_eq_true, Bool.not_eq_true', decide_eq_false_iff_not] at this
    exact ⟨this.1.1, this.1.2, this.2⟩

theorem mem_openFrag (p : String × String) (c : Char) (hc : c ∈ openFrag p) :
    c ∈ p.1.data ∨ c = '=' ∨ c = '\"' ∨ c ∈ p.2.data := by
  simp only [openFrag, List.mem_append, List.mem_cons] at hc
  tauto

theorem mem_closedFrag (p : String × String) (c : Char) (hc : c ∈ closedFrag p) :
    c ∈ p.1.data ∨ c = '=' ∨ c = '\"' ∨ c ∈ p.2.data := by
  simp only [closedFrag, List.mem_append, List.mem_singleton] at hc
  rcases hc with hc | hc
  · exact mem_openFrag p c hc
  · exact Or.inr (Or.inr (Or.inl hc))

theorem noComma_openFrag (p : String × String) (h : labelOk p = true) :
    ∀ c ∈ openFrag p, c ≠ ',' := by
  intro c hc
  obtain ⟨hk, hv⟩ := labelOk_chars p h
  rcases mem_openFrag p c hc with h1 | h1 | h1 | h1
  · exact (hk c h1).2.1
  · subst h1; decide
  · subst h1; decide
  · exact (hv c h1).2.1

theorem noComma_closedFrag (p : String × String) (h : labelOk p = true) :
    ∀ c ∈ closedFrag p, c ≠ ',' := by
  intro c hc
  obtain ⟨hk, hv⟩ := labelOk_chars p h
  rcases mem_closedFrag p c hc with h1 | h1 | h1 | h1
  · exact (hk c h1).2.1
  · subst h1; decide
  · subst h1; decide
  · exact (hv c h1).2.1

theorem mem_joinCommaChars :
    ∀ (fs : List (List Char)) (c : Char), c ∈ joinCommaChars fs →
      (∃ f ∈ fs, c ∈ f) ∨ c = ','
  | [], _, hc => by simp [joinCommaChars] at hc
  | [f], c, hc => by
    simp only [joinCommaChars] at hc
    exact Or.inl ⟨f, List.mem_singleton_self f, hc⟩
  | f :: g :: fs, c, hc => by
    rw [joinCommaChars_cons f (g :: fs) (by simp)] at hc
    simp only [List.mem_append, List.mem_cons] at hc
    rcases hc with hc | hc | hc
    · exact Or.inl ⟨f, List.mem_cons_self _ _, hc⟩
    · exact Or.inr hc
    · rcases mem_joinCommaChars (g :: fs) c hc with ⟨f2, hf2, hcf2⟩ | hc
      · exact Or.inl ⟨f2, List.mem_cons_of_mem _ hf2, hcf2⟩
      · exact Or.inr hc

theorem noBackslash_render (ps : List (String × String)) (h : ∀ p ∈ ps, labelOk p = true) :
    ∀ c ∈ joinCommaChars (ps.map closedFrag), c ≠ '\\' := by
  intro c hc
  rcases mem_joinCommaChars _ c hc with ⟨f, hf, hcf⟩ | hc
  · rw [List.mem_map] at hf
    obtain ⟨p, hp, rfl⟩ := hf
    obtain ⟨hk, hv⟩ := labelOk_chars p (h p hp)
    rcases mem_closedFrag p c hcf with h1 | h1 | h1 | h1
    · exact (hk c h1).2.2
    · subst h1; decide
    · subst h1; decide
    · exact (hv c h1).2.2
  · subst hc; decide

theorem splitQC_render :
    ∀ (xs : List (String × String)) (z : String × String),
      (∀ p ∈ xs, labelOk p = true) → labelOk z = true →
      splitQC (joinCommaChars ((xs ++ [z]).map closedFrag)) =
        xs.map openFrag ++ [closedFrag z]
  | [], z, _, hz => by
    simp only [List.nil_append, List.map_cons, List.map_nil, joinCommaChars]
    rw [splitQC_no_comma (closedFrag z) (noComma_closedFrag z hz)]
  | x :: xs, z, h, hz => by
    have hx : labelOk x = true := h x (List.mem_cons_self _ _)
    have hrest : ∀ p ∈ xs, labelOk p = true := fun p hp => h p (List.mem_cons_of_mem _ hp)
    have hne : (xs ++ [z]).map closedFrag ≠ [] := by simp
    rw [List.cons_append, List.map_cons, joinCommaChars_cons _ _ hne]
    have hshape : closedFrag x ++ ',' :: joinCommaChars ((xs ++ [z]).map closedFrag)
        = openFrag x ++ '\"' :: ',' :: joinCommaChars ((xs ++ [z]).map closedFrag) := by
      simp [closedFrag, List.append_assoc]
    rw [hshape, splitQC_append_sep (openFrag x) _ (noComma_openFrag x hx),
      splitQC_render xs z hrest hz]
    simp

theorem openFrag_ne_nil (p : String × String) : openFrag p ≠ [] := by
  simp [openFrag]

theorem fragment_keep (xs : List (String × String)) (z : String × String)
    (h : ∀ p ∈ xs, labelOk p = true) (hz : labelOk z = true) :
    ∀ l ∈ (xs.map openFrag ++ [closedFrag z]).map String.mk,
      (!(l == "") && !(jsStartsWith l "app_")) = true := by
  intro l hl
  rw [List.mem_map] at hl
  obtain ⟨f, hf, rfl⟩ := hl
  rw [List.mem_append, List.mem_singleton] at hf
  rcases hf with hf | rfl
  · rw [List.mem_map] at hf
    obtain ⟨p, hp, rfl⟩ := hf
    have hok := h p hp
    simp only [labelOk, Bool.and_eq_true] at hok
    have happ : (!(jsStartsWith (String.mk (openFrag p)) "app_")) = true := hok.1.2
    have hne : (String.mk (openFrag p) == "") = false := by
      rw [beq_eq_false_iff_ne]
      intro heq
      exact absurd (congrArg String.data heq) (openFrag_ne_nil p)
    simp [hne, happ]
  · simp only [labelOk, Bool.and_eq_true] at hz
    have happ : (!(jsStartsWith (String.mk (closedFrag z)) "app_")) = true := hz.2
    have hne : (String.mk (closedFrag z) == "") = false := by
      rw [beq_eq_false_iff_ne]
      intro heq
      have hd := congrArg String.data heq
      simp [closedFrag] at hd
    simp [hne, happ]

theorem sortedLabelsOfRaw_render (xs : List (String × String)) (z : String × String)
    (h : ∀ p ∈ xs, labelOk p = true) (hz : labelOk z = true) :
    sortedLabelsOfRaw (renderLabels (xs ++ [z])) =
      String.intercalate ","
        ((List.insertionSort strLe
          ((xs.map openFrag ++ [closedFrag z]).map String.mk)).map (fun s => s ++ "\"")) := by
  have hall : ∀ p ∈ xs ++ [z], labelOk p = true := by
    intro p hp
    rcases List.mem_append.mp hp with hp | hp
    · exact h p hp
    · rw [List.mem_singleton.mp hp]; exact hz
  unfold sortedLabelsOfRaw renderLabels
  rw [show (String.mk (joinCommaChars ((xs ++ [z]).map closedFrag))).data
      = joinCommaChars ((xs ++ [z]).map closedFrag) from rfl]
  rw [replaceQuotesList_id _ (noBackslash_render (xs ++ [z]) hall)]
  rw [splitQC_render xs z h hz]
  rw [List.filter_eq_self.mpr (fragment_keep xs z h hz)]

theorem insertionSort_eq_of_perm {l1 l2 : List String} (h : l1.Perm l2) :
    List.insertionSort strLe l1 = List.insertionSort strLe l2 :=
  List.eq_of_perm_of_sorted
    ((List.perm_insertionSort _ l1).trans (h.trans (List.perm_insertionSort _ l2).symm))
    (List.sorted_insertionSort _ l1) (List.sorted_insertionSort _ l2)

/-- C3 amended: the canonical map key is independent of the textual order of
the labels as long as the permutation keeps the same final label. (The
original claim — independence under every permutation — is refuted by
`parse_key_label_order_dependent`: only the final label keeps its closing
quote through the split, and the re-quoting step doubles it, so moving a
different label into final position changes the key.) Quantified over label
lists whose keys and values avoid the canonicalizer's meta characters and
survive the `app_` filter. -/
theorem parse_key_perm_fixed_last (name : String) (xs ys : List (String × String))
    (z : String × String) (hxs : ∀ p ∈ xs, labelOk p = true) (hz : labelOk z = true)
    (hperm : xs.Perm ys) :
    name ++ "|" ++ sortedLabelsOfRaw (renderLabels (xs ++ [z])) =
      name ++ "|" ++ sortedLabelsOfRaw (renderLabels (ys ++ [z])) := by
  have hys : ∀ p ∈ ys, labelOk p = true := fun p hp => hxs p (hperm.symm.subset hp)
  rw [sortedLabelsOfRaw_render xs z hxs hz, sortedLabelsOfRaw_render ys z hys hz]
  have hfragperm :
      ((xs.map openFrag ++ [closedFrag z]).map String.mk).Perm
        ((ys.map openFrag ++ [closedFrag z]).map String.mk) :=
    ((hperm.map openFrag).append_right [closedFrag z]).map String.mk
  rw [insertionSort_eq_of_perm hfragperm]

theorem parse_key_perm_fixed_last_witness :
    (∀ p ∈ [(("a" : String), ("1" : String))], labelOk p = true) ∧
    labelOk (("b" : String), ("2" : String)) = true ∧
    ([(("a" : String), ("1" : String))].Perm [(("a" : String), ("1" : String))]) ∧
    "m" ++ "|" ++ sortedLabelsOfRaw (renderLabels ([(("a" : String), ("1" : String))] ++ [("b", "2")])) =
      "m" ++ "|" ++ sortedLabelsOfRaw (renderLabels ([(("a" : String), ("1" : String))] ++ [("b", "2")])) :=
  ⟨by decide, by decide, List.Perm.refl _,
    parse_key_perm_fixed_last "m" [("a", "1")] [("a", "1")] ("b", "2")
      (by decide) (by decide) (List.Perm.refl _)⟩

theorem runAllUntil_of_pred_true {σ : Type} (c : ClockOps σ) (i : Nat) (p : σ → Bool)
    (fuel : Nat) (s : σ) (h : p s = true) :
    runAllUntil c i p fuel s = some (s, [.checkStep i true]) := by
  cases fuel <;> simp [runAllUntil, h]

theorem runPeriodicAux_immediate {σ : Type} (c : ClockOps σ) (interval fuel : Nat)
    (sv : Nat → σ → Bool) :
    ∀ (k i0 : Nat) (s : σ),
      (∀ j, j < k → sv (i0 + j) ((c.tickA interval)^[j + 1] s) = true) →
      runPeriodicAux c interval sv fuel i0 k s =
        some ((c.tickA interval)^[k] s,
          (List.range' i0 k).flatMap (fun i => [.tick interval, .checkStep i true]))
  | 0, i0, s, _ => by simp [runPeriodicAux]
  | k + 1, i0, s, h => by
    have h0 : sv i0 (c.tickA interval s) = true := by
      have h00 := h 0 (Nat.succ_pos k)
      simpa using h00
    have ih := runPeriodicAux_immediate c interval fuel sv k (i0 + 1) (c.tickA interval s)
      (fun j hj => by
        have hj2 := h (j + 1) (Nat.succ_lt_succ hj)
        rw [Function.iterate_succ_apply] at hj2
        have hidx : i0 + 1 + j = i0 + (j + 1) := by omega
        rw [hidx]
        exact hj2)
    simp only [runPeriodicAux, runAllUntil_of_pred_true c i0 (sv i0) fuel _ h0, ih]
    rw [← Function.iterate_succ_apply]
    simp [List.range']

theorem countP_check_bind (interval : Nat) :
    ∀ n : Nat,
      (((List.range n).flatMap
        (fun i => [DriverEv.tick interval, DriverEv.checkStep i true])).countP
          DriverEv.isCheck) = n
  | 0 => rfl
  | n + 1 => by
    rw [List.range_succ]
    simp [List.countP_append, countP_check_bind interval n, DriverEv.isCheck, List.countP_cons]

/-- C5: driving `times` periodic iterations performs, for each iteration `i`,
first one synchronous clock advance of exactly `interval` milliseconds and
then the predicate-gated advancement with `stepValidation(i)`. When each
iteration's validation holds once its tick has run (the hypothesis `himm`,
over the states reached by ticking), the trace is exactly
tick-check-tick-check-…: the predicate is invoked exactly `times` times —
three for `times = 3` — each invocation comes directly after its own tick and
never before it, and iteration `i` is fully settled before iteration `i+1`'s
tick appears in the trace. -/
theorem runPeriodic_spec {σ : Type} (c : ClockOps σ) (interval times fuel : Nat)
    (sv : Nat → σ → Bool) (s : σ)
    (himm : ∀ j, j < times → sv j ((c.tickA interval)^[j + 1] s) = true) :
    runPeriodicAsyncBackgroundExecution c interval times sv fuel s =
      some ((c.tickA interval)^[times] s,
        (List.range times).flatMap (fun i => [.tick interval, .checkStep i true])) ∧
    (((List.range times).flatMap
      (fun i => [DriverEv.tick interval, DriverEv.checkStep i true])).countP
        DriverEv.isCheck) = times := by
  constructor
  · have hmain := runPeriodicAux_immediate c interval fuel sv times 0 s
      (fun j hj => by simpa using himm j hj)
    rw [runPeriodicAsyncBackgroundExecution, hmain, List.range_eq_range']
  · exact countP_check_bind interval times

theorem runPeriodic_spec_witness :
    (∀ j, j < 3 → (fun (_ : Nat) (_ : Nat) => true) j ((natTickClock.tickA 1000)^[j + 1] 0) = true) ∧
    runPeriodicAsyncBackgroundExecution natTickClock 1000 3 (fun _ _ => true) 0 0 =
      some (3000,
        [.tick 1000, .checkStep 0 true, .tick 1000, .checkStep 1 true,
          .tick 1000, .checkStep 2 true]) ∧
    ([DriverEv.tick 1000, DriverEv.checkStep 0 true, DriverEv.tick 1000, DriverEv.checkStep 1 true,
      DriverEv.tick 1000, DriverEv.checkStep 2 true].countP DriverEv.isCheck) = 3 :=
  ⟨fun _ _ => rfl,
    (runPeriodic_spec natTickClock 1000 3 0 (fun _ _ => true) 0 (fun _ _ => rfl)).1,
    by decide⟩

theorem minD_le_of_mem : ∀ (ts : List Nat) (a : Nat), a ∈ ts → ∃ m, minD ts = some m ∧ m ≤ a
  | [], a, ha => absurd ha (List.not_mem_nil a)
  | t :: rest, a, ha => by
    rcases List.mem_cons.mp ha with rfl | ha
    · cases hm : minD rest with
      | none => exact ⟨a, by simp [minD, hm], le_refl a⟩
      | some m => exact ⟨min a m, by simp [minD, hm], min_le_left a m⟩
    · obtain ⟨m, hm, hle⟩ := minD_le_of_mem rest a ha
      rw [show minD (t :: rest) = some (min t m) by simp [minD, hm]]
      exact ⟨min t m, rfl, le_trans (min_le_right t m) hle⟩

theorem mem_removeFirstD :
    ∀ (ts : List Nat) (d a : Nat), a ∈ ts → a ≠ d → a ∈ removeFirstD ts d
  | [], _, _, ha, _ => absurd ha (List.not_mem_nil _)
  | t :: rest, d, a, ha, hne => by
    rcases List.mem_cons.mp ha with rfl | ha
    · have htd : ¬ a = d := hne
      simp [removeFirstD, htd]
    · by_cases htd : t = d
      · simpa [removeFirstD, htd] using ha
      · simp only [removeFirstD, if_neg htd, List.mem_cons]
        exact Or.inr (mem_removeFirstD rest d a ha hne)

theorem nextAsyncV_bounded (spawn : Nat → List Nat) (k : Nat) (c : VClock) (target : Nat)
    (hnow : c.now ≤ target) (hmem : c.now < target → target ∈ c.timers)
    (hlt : c.now < target) :
    (nextAsyncV spawn k c).now ≤ target ∧
    ((nextAsyncV spawn k c).now < target → target ∈ (nextAsyncV spawn k c).timers) := by
  have htl := hmem hlt
  obtain ⟨m, hm, hmle⟩ := minD_le_of_mem c.timers target htl
  simp only [nextAsyncV, hm]
  constructor
  · exact max_le hnow hmle
  · intro hlt2
    have hmlt : m < target := lt_of_le_of_lt (le_max_right c.now m) hlt2
    have hne : target ≠ m := fun hcontra => absurd (hcontra ▸ hmlt) (lt_irrefl _)
    exact List.mem_append_left _ (mem_removeFirstD c.timers m target htl hne)

theorem runAllUntilTimeLoop_bounded (spawn : Nat → List Nat) (target : Nat) :
    ∀ (fuel k : Nat) (c : VClock), c.now ≤ target → (c.now < target → target ∈ c.timers) →
      (∀ x ∈ (runAllUntilTimeLoop spawn target fuel k c).2, x ≤ target) ∧
      (∀ c2, (runAllUntilTimeLoop spawn target fuel k c).1 = some c2 → c2.now = target)
  | 0, k, c, hnow, _ => by
    by_cases h : c.now < target
    · simp [runAllUntilTimeLoop, h]
    · simp only [runAllUntilTimeLoop, if_neg h]
      refine ⟨by simp, ?_⟩
      intro c2 h2
      have hc2 : c2 = c := by simpa using h2.symm
      subst hc2
      omega
  | fuel + 1, k, c, hnow, hmem => by
    by_cases h : c.now < target
    · have step := nextAsyncV_bounded spawn k c target hnow hmem h
      have ih := runAllUntilTimeLoop_bounded spawn target fuel (k + 1)
        (nextAsyncV spawn k c) step.1 step.2
      simp only [runAllUntilTimeLoop, if_pos h]
      constructor
      · intro x hx
        rcases List.mem_cons.mp hx with rfl | hx
        · exact step.1
        · exact ih.1 x hx
      · exact ih.2
    · simp only [runAllUntilTimeLoop, if_neg h]
      refine ⟨by simp, ?_⟩
      intro c2 h2
      have hc2 : c2 = c := by simpa using h2.symm
      subst hc2
      omega

/-- C6: for every duration, every initial clock state, every behavior of the
fired callbacks (the `spawn` oracle) and every fuel bound, `runAllUntilTime`
never advances the clock strictly past `now + time`: every intermediate
advancement in the trace lands at or before the target — the sentinel sleep
timer registered at exactly `now + time` guarantees the next-timer step
always has a deadline at or before the target available — and whenever the
loop exits, `clock.now` is exactly `now + time`. -/
theorem runAllUntilTime_bounded (spawn : Nat → List Nat) (fuel : Nat) (c : VClock)
    (time : Nat) :
    (∀ x ∈ (runAllUntilTime spawn fuel c time).2, x ≤ c.now + time) ∧
    (∀ c2, (runAllUntilTime spawn fuel c time).1 = some c2 → c2.now = c.now + time) := by
  apply runAllUntilTimeLoop_bounded spawn (c.now + time) fuel 0 (sleepTimer c time)
  · exact Nat.le_add_right _ _
  · intro _
    exact List.mem_append_right _ (List.mem_singleton_self _)

theorem runAllUntilTime_bounded_witness :
    (runAllUntilTime (fun _ => []) 5 ⟨0, [500]⟩ 1000).2 = [500, 1000] ∧
    (∀ x ∈ (runAllUntilTime (fun _ => []) 5 ⟨0, [500]⟩ 1000).2, x ≤ 1000) ∧
    (∀ c2, (runAllUntilTime (fun _ => []) 5 ⟨0, [500]⟩ 1000).1 = some c2 → c2.now = 1000) :=
  ⟨by decide, (runAllUntilTime_bounded (fun _ => []) 5 ⟨0, [500]⟩ 1000).1,
    (runAllUntilTime_bounded (fun _ => []) 5 ⟨0, [500]⟩ 1000).2⟩

/-- C7: when the predicate already holds at the moment `runAllUntil` is
entered, the advancer performs zero clock advancement calls and returns
immediately: the returned state is exactly the entry state — so the virtual
time and the pending timer set are as they were at entry — and the event
trace holds the single predicate check and no advancement event. -/
theorem runAllUntil_already_true {σ : Type} (c : ClockOps σ) (i : Nat) (p : σ → Bool)
    (fuel : Nat) (s : σ) (h : p s = true) :
    runAllUntil c i p fuel s = some (s, [.checkStep i true]) ∧
    ([DriverEv.checkStep i true].countP (fun e => !e.isCheck)) = 0 :=
  ⟨runAllUntil_of_pred_true c i p fuel s h, rfl⟩

theorem runAllUntil_already_true_witness :
    ((fun (_ : Nat) => true) 7 = true) ∧
    runAllUntil natTickClock 0 (fun _ => true) 2 7 = some (7, [.checkStep 0 true]) ∧
    ([DriverEv.checkStep 0 true].countP (fun e => !e.isCheck)) = 0 :=
  ⟨rfl, (runAllUntil_already_true natTickClock 0 (fun _ => true) 2 7 rfl).1,
    (runAllUntil_already_true natTickClock 0 (fun _ => true) 2 7 rfl).2⟩

/-- C8: each clock- or store-dependent orchestrator operation checks its
dependency first and throws a configuration error without touching its body —
the result is the same fixed error for every body, so no request is issued
and no time advanced: `startBackgroundExecuteThenGetResponse` throws when no
clock or no mock cache is installed, `waitForCache` throws when no clock is
installed, and `getMetrics` throws when the service was started without
metrics enabled; none silently no-ops. -/
theorem testAdapter_missing_dependency_throws {α : Type} (a : TestAdapterDeps) :
    (a.clock = none → ∀ body : α,
      startBackgroundExecuteThenGetResponse a body =
        .error "The \"startBackgroundExecuteThenGetResponse\" method should only be called if a fake clock is installed" ∧
      waitForCache a body =
        .error "The \"startBackgroundExecuteThenGetResponse\" method should only be called if a fake clock is installed") ∧
    (a.mockCache = none → ∀ body : α, ∃ msg,
      startBackgroundExecuteThenGetResponse a body = .error msg) ∧
    (a.metricsApi = none → ∀ body : α,
      getMetrics a body =
        .error "An attempt was made to fetch metrics, but the adapter was started without metrics enabled") := by
  refine ⟨?_, ?_, ?_⟩
  · intro h body
    have hc : a.clock.isNone = true := by simp [h]
    constructor
    · simp [startBackgroundExecuteThenGetResponse, hc]
    · simp [waitForCache, hc]
  · intro h body
    have hm : a.mockCache.isNone = true := by simp [h]
    by_cases hc : a.clock.isNone = true
    · exact ⟨"The \"startBackgroundExecuteThenGetResponse\" method should only be called if a fake clock is installed",
        by simp [startBackgroundExecuteThenGetResponse, hc]⟩
    · have hc2 : a.clock.isNone = false := by
        cases hcc : a.clock.isNone
        · rfl
        · exact absurd hcc hc
      exact ⟨"The \"startBackgroundExecuteThenGetResponse\" method should only be called if a mock cache was provided",
        by simp [startBackgroundExecuteThenGetResponse, hc2, hm]⟩
  · intro h body
    have hm : a.metricsApi.isNone = true := by simp [h]
    simp [getMetrics, hm]

theorem testAdapter_missing_dependency_throws_witness :
    (TestAdapterDeps.mk none none none).clock = none ∧
    (startBackgroundExecuteThenGetResponse (TestAdapterDeps.mk none none none) (0 : Nat) =
      .error "The \"startBackgroundExecuteThenGetResponse\" method should only be called if a fake clock is installed" ∧
    waitForCache (TestAdapterDeps.mk none none none) (0 : Nat) =
      .error "The \"startBackgroundExecuteThenGetResponse\" method should only be called if a fake clock is installed") ∧
    getMetrics (TestAdapterDeps.mk none none none) (0 : Nat) =
      .error "An attempt was made to fetch metrics, but the adapter was started without metrics enabled" :=
  ⟨rfl, (testAdapter_missing_dependency_throws (TestAdapterDeps.mk none none none)).1 rfl 0,
    (testAdapter_missing_dependency_throws (TestAdapterDeps.mk none none none)).2.2 rfl 0⟩

/-- C9: reading property `p` on the strict-access wrapper of an object raises
the does-not-exist error exactly when `p` is absent from the property table,
is not a symbol and is not on the allow-list of framework-probe names; a
present property comes back as the wrapper applied recursively to its value;
and wrapping `null`, `undefined` or a non-object returns the value unchanged,
so only accessed paths are checked. -/
theorem makeStub_strict_access (name : String) (fields : List (String × JsValue))
    (p : PropKey) :
    ((∃ msg, stubGet name fields p = .error msg) ↔
      (stubField fields p = none ∧ (∀ d, p ≠ .sym d) ∧
        isStubPropAllowedUndefined p = false)) ∧
    (∀ v, stubField fields p = some v →
      stubGet name fields p = .ok (makeStub (name ++ "." ++ propKeyString p) v)) ∧
    makeStub name .jsNull = .raw .jsNull ∧
    makeStub name .undefVal = .raw .undefVal ∧
    (∀ r, makeStub name (.prim r) = .raw (.prim r)) := by
  refine ⟨⟨?_, ?_⟩, ?_, rfl, rfl, fun _ => rfl⟩
  · rintro ⟨msg, hmsg⟩
    by_cases hC : ((stubField fields p).isNone && !(isStubPropAllowedUndefined p)) = true
    · have h1 := (Bool.and_eq_true _ _).mp hC
      have hnone : stubField fields p = none := Option.isNone_iff_eq_none.mp h1.1
      have hallow : isStubPropAllowedUndefined p = false := by
        have := h1.2
        simpa using this
      refine ⟨hnone, ?_, hallow⟩
      intro d hd
      subst hd
      simp [isStubPropAllowedUndefined] at hallow
    · simp [stubGet, hC] at hmsg
  · rintro ⟨h1, _, h3⟩
    have hC : ((stubField fields p).isNone && !(isStubPropAllowedUndefined p)) = true := by
      simp [h1, h3]
    exact ⟨"Property " ++ String.singleton apostChar ++ (name ++ "." ++ propKeyString p) ++
      String.singleton apostChar ++ " does not exist", by simp [stubGet, hC]⟩
  · intro v hv
    have hC : ((stubField fields p).isNone && !(isStubPropAllowedUndefined p)) = false := by
      simp [hv]
    simp [stubGet, hC, hv]

theorem makeStub_strict_access_witness :
    stubField [("foo", JsValue.obj [("bar", JsValue.prim "1")])] (.str "foo") =
      some (JsValue.obj [("bar", JsValue.prim "1")]) ∧
    stubGet "obj" [("foo", JsValue.obj [("bar", JsValue.prim "1")])] (.str "foo") =
      .ok (makeStub ("obj" ++ "." ++ propKeyString (.str "foo"))
        (JsValue.obj [("bar", JsValue.prim "1")])) :=
  ⟨rfl,
    (makeStub_strict_access "obj" [("foo", JsValue.obj [("bar", JsValue.prim "1")])]
      (.str "foo")).2.1 (JsValue.obj [("bar", JsValue.prim "1")]) rfl⟩

theorem resultSlot_eq (sa : Nat) (v : JsValue) (st : Nat)
    (h : (resultSlot sa v st).isUndefined = false) : resultSlot sa v st = v := by
  unfold resultSlot at h ⊢
  by_cases hle : sa ≤ st
  · simp [hle]
  · simp [hle, JsValue.isUndefined] at h

theorem waitUntilResolvedLoop_some (sa : Nat) (v : JsValue) :
    ∀ (fuel steps : Nat) (r : JsValue),
      waitUntilResolvedLoop sa v fuel steps = some r → r = v ∧ r.isUndefined = false
  | 0, steps, r, h => by
    by_cases hs : (resultSlot sa v steps).isUndefined = true
    · simp [waitUntilResolvedLoop, hs] at h
    · have hs2 : (resultSlot sa v steps).isUndefined = false := by
        cases hval : (resultSlot sa v steps).isUndefined
        · rfl
        · exact absurd hval hs
      have hr : resultSlot sa v steps = r := by
        simpa [waitUntilResolvedLoop, hs2] using h
      have hv := resultSlot_eq sa v steps hs2
      exact ⟨by rw [← hr, hv], by rw [← hr]; exact hs2⟩
  | fuel + 1, steps, r, h => by
    by_cases hs : (resultSlot sa v steps).isUndefined = true
    · rw [waitUntilResolvedLoop, if_pos hs] at h
      exact waitUntilResolvedLoop_some sa v fuel (steps + 1) r h
    · have hs2 : (resultSlot sa v steps).isUndefined = false := by
        cases hval : (resultSlot sa v steps).isUndefined
        · rfl
        · exact absurd hval hs
      have hr : resultSlot sa v steps = r := by
        simpa [waitUntilResolvedLoop, hs2] using h
      have hv := resultSlot_eq sa v steps hs2
      exact ⟨by rw [← hr, hv], by rw [← hr]; exact hs2⟩

theorem waitUntilResolvedLoop_undefined (sa : Nat) :
    ∀ fuel steps : Nat, waitUntilResolvedLoop sa .undefVal fuel steps = none
  | 0, steps => by
    have hs : (resultSlot sa .undefVal steps).isUndefined = true := by
      unfold resultSlot
      by_cases h : sa ≤ steps <;> simp [h, JsValue.isUndefined]
    simp [waitUntilResolvedLoop, hs]
  | fuel + 1, steps => by
    have hs : (resultSlot sa .undefVal steps).isUndefined = true := by
      unfold resultSlot
      by_cases h : sa ≤ steps <;> simp [h, JsValue.isUndefined]
    simp [waitUntilResolvedLoop, hs, waitUntilResolvedLoop_undefined sa fuel (steps + 1)]

/-- C10: whenever `waitUntilResolved` returns, its value is the settled
result and is distinct from `undefined` — the loop's settled-check is the
result slot differing from `undefined` — and when the operation settles with
the value `undefined` itself, that check can never pass, so the bridge never
returns and keeps advancing the clock until the fuel (the outer test timeout)
runs out, indistinguishable from an operation that never settles. -/
theorem waitUntilResolved_not_undefined (settleAfter fuel : Nat) (value : JsValue) :
    (∀ r, waitUntilResolved settleAfter value fuel = some r →
      r = value ∧ r.isUndefined = false) ∧
    (value = .undefVal → waitUntilResolved settleAfter value fuel = none) := by
  constructor
  · exact fun r h => waitUntilResolvedLoop_some settleAfter value fuel 0 r h
  · intro h
    subst h
    exact waitUntilResolvedLoop_undefined settleAfter fuel 0

theorem waitUntilResolved_not_undefined_witness :
    waitUntilResolved 2 (JsValue.prim "42") 5 = some (JsValue.prim "42") ∧
    ((JsValue.prim "42") = (JsValue.prim "42") ∧ (JsValue.prim "42").isUndefined = false) ∧
    waitUntilResolved 2 JsValue.undefVal 5 = none :=
  ⟨rfl, (waitUntilResolved_not_undefined 2 5 (JsValue.prim "42")).1 (JsValue.prim "42") rfl,
    (waitUntilResolved_not_undefined 2 5 JsValue.undefVal).2 rfl⟩
